import Mathlib

/-!
Verification of the WedsiteSum document ingestion and retrieval pipeline.

The repository ships the frontend (Dashboard upload/query UI, `utils/auth.js`)
together with documentation of the backend pipeline; the backend modules
(extractor, chunker, retriever, summarizer) are not part of the source tree,
so they are modelled here from the specification, while the frontend handlers
are embedded directly from the shipped JavaScript.
-/

namespace WedsiteSum

/-! ## Chunker (modelled from the spec) -/

/-- Modelled from the spec: the backend chunker module is missing from the
source tree.  Splits normalized text into chunks of `size` characters where
each chunk after the first repeats the trailing `overlap` characters of the
previous one (so consecutive chunk starts are `size - overlap` apart, as in
the spec's worked example `[0,500) [400,900) [800,1200)`).  Empty text yields
zero chunks; text no longer than one chunk yields exactly one chunk.  The
boundary-snapping refinement the spec permits is not modelled: the spec
requires the reconstruction invariant to hold for the declared boundaries. -/
def chunkList (size overlap : Nat) (text : List Char) : List (List Char) :=
  if h0 : text = [] then []
  else if h1 : text.length ≤ size then [text]
  else if h2 : size ≤ overlap then [text]
  else text.take size :: chunkList size overlap (text.drop (size - overlap))
termination_by text.length
decreasing_by
  simp only [List.length_drop]
  omega

/-- Concatenate chunks in ordinal order, removing the repeated `overlap`
prefix of every chunk after the first. -/
def reassemble (overlap : Nat) : List (List Char) → List Char
  | [] => []
  | c :: cs => c ++ (cs.map (List.drop overlap)).flatten

/-- Helper: dropping the shared `overlap` prefix of every chunk and
concatenating yields the input minus its first `overlap` characters. -/
theorem chunkList_drop_join (size overlap : Nat) :
    ∀ n (t : List Char), t.length ≤ n →
      ((chunkList size overlap t).map (List.drop overlap)).flatten = t.drop overlap := by
  intro n
  induction n with
  | zero =>
    intro t ht
    have h : t = [] := List.eq_nil_of_length_eq_zero (Nat.le_zero.mp ht)
    subst h
    simp [chunkList]
  | succ n ih =>
    intro t ht
    rw [chunkList]
    by_cases h0 : t = []
    · subst h0; simp
    · rw [dif_neg h0]
      by_cases h1 : t.length ≤ size
      · rw [dif_pos h1]; simp
      · rw [dif_neg h1]
        by_cases h2 : size ≤ overlap
        · rw [dif_pos h2]; simp
        · rw [dif_neg h2]
          simp only [List.map_cons, List.flatten_cons]
          rw [ih (t.drop (size - overlap)) (by simp only [List.length_drop]; omega)]
          rw [List.drop_drop, List.drop_take]
          have hsz : size - overlap + overlap = size := by omega
          rw [hsz]
          have hds : t.drop size = (t.drop overlap).drop (size - overlap) := by
            rw [List.drop_drop]
            congr 1
            omega
          rw [hds, List.take_append_drop]

/-- C1: for every document text and chunking parameters, concatenating the
produced chunks in ordinal order while removing each chunk's repeated
overlap region reconstructs the original (already normalized) text exactly. -/
theorem chunk_reassemble_eq (size overlap : Nat) (text : List Char) :
    reassemble overlap (chunkList size overlap text) = text := by
  rw [chunkList]
  by_cases h0 : text = []
  · subst h0; simp [reassemble]
  · rw [dif_neg h0]
    by_cases h1 : text.length ≤ size
    · rw [dif_pos h1]; simp [reassemble]
    · rw [dif_neg h1]
      by_cases h2 : size ≤ overlap
      · rw [dif_pos h2]; simp [reassemble]
      · rw [dif_neg h2]
        show text.take size ++
            ((chunkList size overlap (text.drop (size - overlap))).map
              (List.drop overlap)).flatten = text
        rw [chunkList_drop_join size overlap (text.drop (size - overlap)).length _
          (Nat.le_refl _)]
        rw [List.drop_drop]
        have hsz : size - overlap + overlap = size := by omega
        rw [hsz, List.take_append_drop]

/-- A chunk record as produced at ingestion time: parent document id,
0-based ordinal, character start offset, and raw text. -/
structure Chunk where
  docId : Nat
  ordinal : Nat
  start : Nat
  text : List Char
deriving DecidableEq

/-- Modelled from the spec: chunk a document's text into `Chunk` records,
attaching the parent document id, ordinal positions and start offsets. -/
def chunkDocument (docId size overlap : Nat) (text : List Char) : List Chunk :=
  (chunkList size overlap text).enum.map fun p =>
    ⟨docId, p.1, p.1 * (size - overlap), p.2⟩

/-- C8: chunking is a pure function of (text, size, overlap): two runs on
identical text with identical parameters — even runs attached to different
document records — produce byte-identical chunk boundaries
(ordinal, start offset, chunk text). -/
theorem chunk_boundaries_deterministic (d1 d2 size overlap : Nat)
    (t1 t2 : List Char) (h : t1 = t2) :
    (chunkDocument d1 size overlap t1).map (fun c => (c.ordinal, c.start, c.text)) =
      (chunkDocument d2 size overlap t2).map (fun c => (c.ordinal, c.start, c.text)) := by
  subst h
  simp [chunkDocument, List.map_map, Function.comp]

/-- Witness for C8 at a concrete input. -/
theorem chunk_boundaries_deterministic_witness :
    (chunkDocument 0 5 2 "abcdefgh".toList).map (fun c => (c.ordinal, c.start, c.text)) =
      (chunkDocument 1 5 2 "abcdefgh".toList).map (fun c => (c.ordinal, c.start, c.text)) :=
  chunk_boundaries_deterministic 0 1 5 2 _ _ rfl

/-! ## Dashboard upload handler (embedded from `Dashboard.jsx`) -/

/-- Outcome of the Dashboard's `handleFileUpload` before any network call. -/
inductive UploadAction
  | rejectTooLarge
  | rejectBadType
  | upload
deriving DecidableEq

/-- The client-side size limit: `4.0 * 1024 * 1024` bytes. -/
def maxUploadBytes : Nat := 4 * 1024 * 1024

/-- The handler's filename test `file.name.match(/\.(pdf|txt)$/i)`:
case-insensitively, the name ends in `.pdf` or `.txt`. -/
def hasAllowedExt (name : List Char) : Bool :=
  ".pdf".toList.isSuffixOf (name.map Char.toLower) ||
    ".txt".toList.isSuffixOf (name.map Char.toLower)

/-- `handleFileUpload` from `Dashboard.jsx`: rejects files over
`maxUploadBytes`, then rejects filenames that do not match
`/\.(pdf|txt)$/i`, and only then calls `uploadFile`. -/
def handleFileUpload (name : List Char) (size : Nat) : UploadAction :=
  if size > maxUploadBytes then .rejectTooLarge
  else if ¬ hasAllowedExt name then .rejectBadType
  else .upload

/-- The extension list of the Dashboard file input's `accept` attribute. -/
def acceptAttrExts : List (List Char) :=
  [".pdf", ".txt", ".docx", ".doc", ".xlsx", ".xls", ".csv", ".md",
    ".markdown", ".html", ".htm", ".png", ".jpg", ".jpeg", ".gif",
    ".bmp", ".tiff", ".webp"].map String.toList

/-- C4 (failing input): the file input's `accept` attribute offers `.png`
(and DOCX/XLSX/CSV/Markdown/HTML and the other image types), yet
`handleFileUpload` rejects `photo.png` — and every other non-PDF/TXT
supported format — before any upload request is sent. -/
theorem png_rejected_despite_accept_attr :
    ".png".toList ∈ acceptAttrExts ∧
      handleFileUpload "photo.png".toList 1000 = .rejectBadType ∧
      handleFileUpload "report.docx".toList 1000 = .rejectBadType ∧
      handleFileUpload "data.csv".toList 1000 = .rejectBadType := by
  refine ⟨by decide, ?_, ?_, ?_⟩ <;> decide

/-- C10: every file whose size exceeds `4.0 * 1024 * 1024` bytes is rejected
by `handleFileUpload` with the file-too-large error, before the extension
check and before `uploadFile` could be called — so no upload request is ever
sent for such a file. -/
theorem oversized_file_never_uploaded (name : List Char) (size : Nat)
    (h : maxUploadBytes < size) :
    handleFileUpload name size = .rejectTooLarge ∧
      handleFileUpload name size ≠ .upload := by
  unfold handleFileUpload
  rw [if_pos h]
  exact ⟨rfl, by simp⟩

/-- Witness for C10 at a concrete input. -/
theorem oversized_file_never_uploaded_witness :
    maxUploadBytes < 5000000 ∧
      (handleFileUpload "big.pdf".toList 5000000 = .rejectTooLarge ∧
        handleFileUpload "big.pdf".toList 5000000 ≠ .upload) :=
  ⟨by decide, oversized_file_never_uploaded "big.pdf".toList 5000000 (by decide)⟩

/-! ## Guest-mode client (embedded from `frontend/src/utils/auth.js`) -/

/-- The browser's `localStorage`, the only place the client could keep a
session token. -/
structure BrowserStorage where
  token : Option String
deriving DecidableEq

/-- `getToken` from the shipped `auth.js`: `() => null`, regardless of what
is stored. -/
def getToken (_s : BrowserStorage) : Option String := none

/-- `setToken` from the shipped `auth.js`: `(token) => { }`, a no-op. -/
def setToken (s : BrowserStorage) (_t : String) : BrowserStorage := s

/-- `removeToken` from the shipped `auth.js`: `() => { }`, a no-op. -/
def removeToken (s : BrowserStorage) : BrowserStorage := s

/-- An HTTP request as assembled by the client helpers. -/
structure HttpRequest where
  url : String
  method : String
  headers : List (String × String)
  body : Option String
deriving DecidableEq

/-- The development default of `API_URL` in `auth.js`. -/
def apiUrl : String := "http://localhost:8000"

/-- `apiRequest` from the shipped `auth.js`: builds the request from the
endpoint and the caller's options only; it never reads the stored token and
adds no `Authorization` header of its own. -/
def apiRequest (_s : BrowserStorage) (endpoint method : String)
    (callerHeaders : List (String × String)) (body : Option String) : HttpRequest :=
  { url := apiUrl ++ endpoint
    method := method
    headers := ("Content-Type", "application/json") :: callerHeaders
    body := body }

/-- `uploadFile` from the shipped `auth.js`: posts the form data to
`/upload` with no explicit headers and no token. -/
def uploadFileRequest (_s : BrowserStorage) (fileField : String) : HttpRequest :=
  { url := apiUrl ++ "/upload"
    method := "POST"
    headers := []
    body := some fileField }

/-- The Dashboard's `loadDocuments` call: `apiRequest('/documents')`. -/
def loadDocumentsRequest (s : BrowserStorage) : HttpRequest :=
  apiRequest s "/documents" "GET" [] none

/-- The Dashboard's `handleSummarize` call:
`apiRequest('/summarize/' + documentId, { method: 'POST' })`. -/
def summarizeRequest (s : BrowserStorage) (docId : Nat) : HttpRequest :=
  apiRequest s ("/summarize/" ++ toString docId) "POST" [] none

/-- The Dashboard's `handleQuery` call:
`apiRequest('/query', { method: 'POST', body })`. -/
def queryRequest (s : BrowserStorage) (body : String) : HttpRequest :=
  apiRequest s "/query" "POST" [] (some body)

/-- C9: in the shipped client `getToken` always returns `null` and
`setToken`/`removeToken` are no-ops, every request built by `apiRequest` or
`uploadFile` carries no `Authorization` header, and for any two storage
states (different stored tokens, or none) the requests sent to the upload,
documents, summarize and query endpoints are identical: the whole document
pipeline runs unauthenticated. -/
theorem guest_mode_requests (s1 s2 : BrowserStorage) (t e m : String)
    (hs : List (String × String)) (b : Option String) (f : String)
    (d : Nat) (q : String) :
    getToken s1 = none ∧ setToken s1 t = s1 ∧ removeToken s1 = s1 ∧
      apiRequest s1 e m hs b = apiRequest s2 e m hs b ∧
      uploadFileRequest s1 f = uploadFileRequest s2 f ∧
      (∀ p ∈ (apiRequest s1 e m [] b).headers, p.1 ≠ "Authorization") ∧
      (∀ p ∈ (uploadFileRequest s1 f).headers, p.1 ≠ "Authorization") ∧
      loadDocumentsRequest s1 = loadDocumentsRequest s2 ∧
      summarizeRequest s1 d = summarizeRequest s2 d ∧
      queryRequest s1 q = queryRequest s2 q := by
  refine ⟨rfl, rfl, rfl, rfl, rfl, ?_, ?_, rfl, rfl, rfl⟩ <;>
    simp [apiRequest, uploadFileRequest]

/-- Witness for C9 at concrete storage states (a stored token vs none). -/
theorem guest_mode_requests_witness :
    getToken ⟨some "secret"⟩ = none ∧
      setToken ⟨some "secret"⟩ "other" = ⟨some "secret"⟩ ∧
      removeToken ⟨some "secret"⟩ = ⟨some "secret"⟩ ∧
      apiRequest ⟨some "secret"⟩ "/documents" "GET" [] none =
        apiRequest ⟨none⟩ "/documents" "GET" [] none ∧
      uploadFileRequest ⟨some "secret"⟩ "file" = uploadFileRequest ⟨none⟩ "file" ∧
      (∀ p ∈ (apiRequest ⟨some "secret"⟩ "/documents" "GET" [] none).headers,
        p.1 ≠ "Authorization") ∧
      (∀ p ∈ (uploadFileRequest ⟨some "secret"⟩ "file").headers,
        p.1 ≠ "Authorization") ∧
      loadDocumentsRequest ⟨some "secret"⟩ = loadDocumentsRequest ⟨none⟩ ∧
      summarizeRequest ⟨some "secret"⟩ 3 = summarizeRequest ⟨none⟩ 3 ∧
      queryRequest ⟨some "secret"⟩ "what" = queryRequest ⟨none⟩ "what" :=
  guest_mode_requests ⟨some "secret"⟩ ⟨none⟩ "other" "/documents" "GET" [] none
    "file" 3 "what"

/-! ## Extractor (modelled from the spec) -/

/-- Error kinds of the extraction path (spec §7). -/
inductive ExtractError
  | UnsupportedFormat
  | ExtractionFailed
  | OcrUnavailable
deriving DecidableEq

/-- The file kinds the ingest pipeline recognizes. -/
inductive FileKind
  | plainText
  | markdown
  | csv
  | html
  | pdf
  | docx
  | xlsx
  | image
deriving DecidableEq

/-- The host environment seen by the extractor: whether the OCR engine is
installed, and the text OCR would recognize when it runs. -/
structure OcrHost where
  ocrInstalled : Bool
  ocrOutput : List Char

/-- An uploaded file as the extractor sees it: its detected kind and its
extractable text layer (empty for raster images and for scanned PDFs). -/
structure UploadedFile where
  kind : FileKind
  textLayer : List Char

/-- Modelled from the spec: the backend extractor module is missing from the
source tree.  Text-native and office formats return their text layer; image
formats run OCR, failing with `OcrUnavailable` when the engine is missing;
a PDF with no extractable text layer falls through to per-page OCR instead
of returning empty text, and likewise fails with `OcrUnavailable` — never
`ExtractionFailed`, never a crash — when the engine is missing. -/
def extractText (h : OcrHost) (f : UploadedFile) : Except ExtractError (List Char) :=
  match f.kind with
  | .image =>
      if h.ocrInstalled then .ok h.ocrOutput else .error .OcrUnavailable
  | .pdf =>
      if f.textLayer ≠ [] then .ok f.textLayer
      else if h.ocrInstalled then .ok h.ocrOutput
      else .error .OcrUnavailable
  | _ => .ok f.textLayer

/-- C7: for every uploaded image, and for every scanned PDF with no
extractable text layer, extraction on a host without the OCR engine fails
with the dedicated `OcrUnavailable` error — which in particular is not
`ExtractionFailed` and not a crash of the upload. -/
theorem ocr_missing_yields_ocr_unavailable (h : OcrHost) (f : UploadedFile)
    (hocr : h.ocrInstalled = false)
    (hf : f.kind = .image ∨ (f.kind = .pdf ∧ f.textLayer = [])) :
    extractText h f = .error .OcrUnavailable ∧
      extractText h f ≠ .error .ExtractionFailed := by
  have : extractText h f = .error .OcrUnavailable := by
    rcases hf with hi | ⟨hp, ht⟩
    · simp [extractText, hi, hocr]
    · simp [extractText, hp, ht, hocr]
  exact ⟨this, by simp [this]⟩

/-- Witness for C7: an image and a scanned PDF on a host without OCR. -/
theorem ocr_missing_yields_ocr_unavailable_witness :
    ((⟨false, []⟩ : OcrHost).ocrInstalled = false ∧
      (extractText ⟨false, []⟩ ⟨.image, []⟩ = .error .OcrUnavailable ∧
        extractText ⟨false, []⟩ ⟨.image, []⟩ ≠ .error .ExtractionFailed)) ∧
      (extractText ⟨false, []⟩ ⟨.pdf, []⟩ = .error .OcrUnavailable ∧
        extractText ⟨false, []⟩ ⟨.pdf, []⟩ ≠ .error .ExtractionFailed) :=
  ⟨⟨rfl, ocr_missing_yields_ocr_unavailable ⟨false, []⟩ ⟨.image, []⟩ rfl (Or.inl rfl)⟩,
    ocr_missing_yields_ocr_unavailable ⟨false, []⟩ ⟨.pdf, []⟩ rfl (Or.inr ⟨rfl, rfl⟩)⟩

/-! ## Ranking by a rational key with an ordinal tie-break -/

/-- Rank by a rational `key`, descending, breaking ties in favour of the
lower `pos` value.  `KeyRank key pos a b` says `a` ranks no worse than `b`. -/
def KeyRank {α : Type} (key : α → ℚ) (pos : α → Nat) (a b : α) : Prop :=
  key b < key a ∨ (key a = key b ∧ pos a ≤ pos b)

instance {α : Type} (key : α → ℚ) (pos : α → Nat) :
    DecidableRel (KeyRank key pos) := fun a b => by
  unfold KeyRank
  exact inferInstance

instance {α : Type} (key : α → ℚ) (pos : α → Nat) :
    IsTotal α (KeyRank key pos) where
  total a b := by
    rcases lt_trichotomy (key a) (key b) with h | h | h
    · exact Or.inr (Or.inl h)
    · rcases Nat.le_total (pos a) (pos b) with hp | hp
      · exact Or.inl (Or.inr ⟨h, hp⟩)
      · exact Or.inr (Or.inr ⟨h.symm, hp⟩)
    · exact Or.inl (Or.inl h)

instance {α : Type} (key : α → ℚ) (pos : α → Nat) :
    IsTrans α (KeyRank key pos) where
  trans a b c hab hbc := by
    rcases hab with h1 | ⟨e1, p1⟩
    · rcases hbc with h2 | ⟨e2, _⟩
      · exact Or.inl (h2.trans h1)
      · exact Or.inl (e2 ▸ h1)
    · rcases hbc with h2 | ⟨e2, p2⟩
      · exact Or.inl (e1 ▸ h2)
      · exact Or.inr ⟨e1.trans e2, p1.trans p2⟩

/-! ## Retriever (modelled from the spec) -/

/-- An indexed chunk held by the retriever: parent document id, ordinal
position, raw text and embedding vector (exact rationals stand in for the
floating-point coordinates). -/
structure IChunk where
  docId : Nat
  ordinal : Nat
  text : List Char
  vec : List ℚ
deriving DecidableEq

/-- Dot product of two embedding vectors. -/
def dotQ (v w : List ℚ) : ℚ := (List.zipWith (· * ·) v w).sum

/-- A strictly monotone, square-root-free encoding of the cosine similarity
of `q` and `v`: `sign(d) * d^2 / (v⬝v)` where `d = q⬝v`.  For a fixed
query `q` this orders chunk vectors exactly as `(q⬝v) / (‖q‖ ‖v‖)` does
(proved below), while staying inside `ℚ`. -/
def cosineKey (q v : List ℚ) : ℚ :=
  if dotQ v v = 0 then 0
  else if dotQ q v < 0 then -(dotQ q v * dotQ q v) / dotQ v v
  else dotQ q v * dotQ q v / dotQ v v

/-- The retriever's ranking: cosine similarity descending, ties broken by
the lower ordinal. -/
abbrev chunkRank (q : List ℚ) : IChunk → IChunk → Prop :=
  KeyRank (fun c => cosineKey q c.vec) (fun c => c.ordinal)

/-- The optional `documentIdFilter` of `search`. -/
def matchesFilter (f : Option Nat) (c : IChunk) : Bool :=
  match f with
  | none => true
  | some d => c.docId == d

/-- Modelled from the spec: the candidate chunks, ranked by cosine
similarity with ordinal tie-break. -/
def rankedChunks (idx : List IChunk) (q : List ℚ) (f : Option Nat) :
    List IChunk :=
  List.insertionSort (chunkRank q) (idx.filter (matchesFilter f))

/-- Modelled from the spec: the top-`k` chunks for the query vector. -/
def searchTop (idx : List IChunk) (q : List ℚ) (k : Nat) (f : Option Nat) :
    List IChunk :=
  (rankedChunks idx q f).take k

/-- Retrieval error kinds (spec §7). -/
inductive RagError
  | NoChunksAvailable
  | EmbeddingUnavailable
deriving DecidableEq

/-- Modelled from the spec: the backend retriever module is missing from the
source tree.  `search` fails with the distinct `NoChunksAvailable` condition
when the target document (or, unfiltered, the whole corpus) has zero indexed
chunks, and otherwise returns the top-`k` ranked chunks. -/
def search (idx : List IChunk) (q : List ℚ) (k : Nat) (f : Option Nat) :
    Except RagError (List IChunk) :=
  if idx.filter (matchesFilter f) = [] then .error .NoChunksAvailable
  else .ok (searchTop idx q k f)

/-- C2: `search` fails with `NoChunksAvailable` exactly when the filtered
corpus has zero indexed chunks — even when another document in the corpus
has matching chunks — and a successful search with positive `k` never
returns an empty result list. -/
theorem search_no_chunks (idx : List IChunk) (q : List ℚ) (k : Nat)
    (f : Option Nat) :
    (search idx q k f = .error .NoChunksAvailable ↔
      idx.filter (matchesFilter f) = []) ∧
      (∀ r, search idx q k f = .ok r → 0 < k → r ≠ []) := by
  unfold search
  by_cases h : idx.filter (matchesFilter f) = []
  · rw [if_pos h]
    exact ⟨⟨fun _ => h, fun _ => rfl⟩, fun r hr => by cases hr⟩
  · rw [if_neg h]
    refine ⟨⟨fun hc => (by cases hc), fun hc => absurd hc h⟩, ?_⟩
    intro r hr _hk
    obtain rfl : searchTop idx q k f = r := by cases hr; rfl
    intro hnil
    have hlen : (searchTop idx q k f).length = 0 := by rw [hnil]; rfl
    have hpos : 0 < (idx.filter (matchesFilter f)).length :=
      List.length_pos.mpr h
    have : (searchTop idx q k f).length =
        min k (idx.filter (matchesFilter f)).length := by
      simp [searchTop, rankedChunks, List.length_take,
        List.length_insertionSort]
    omega

/-- Witness for C2, instantiating the spec's example: a corpus of two
documents, document 0 with an indexed chunk and document 1 with none; the
query filtered to document 1 fails with `NoChunksAvailable` even though
document 0 has matches, while the query filtered to document 0 succeeds
with a non-empty result. -/
theorem search_no_chunks_witness :
    (search [⟨0, 0, "alpha".toList, [1]⟩] [1] 3 (some 1) =
      .error .NoChunksAvailable) ∧
      ∀ r, search [⟨0, 0, "alpha".toList, [1]⟩] [1] 3 (some 0) = .ok r →
        r ≠ [] := by
  constructor
  · exact (search_no_chunks [⟨0, 0, "alpha".toList, [1]⟩] [1] 3 (some 1)).1.mpr
      (by decide)
  · intro r hr
    exact (search_no_chunks [⟨0, 0, "alpha".toList, [1]⟩] [1] 3 (some 0)).2
      r hr (by decide)

/-! ### The rational key orders vectors exactly as cosine similarity does -/

/-- A dot product of a vector with itself is non-negative. -/
theorem dotQ_self_nonneg (v : List ℚ) : 0 ≤ dotQ v v := by
  induction v with
  | nil => simp [dotQ]
  | cons a v ih =>
    have : dotQ (a :: v) (a :: v) = a * a + dotQ v v := by
      simp [dotQ, List.zipWith]
    rw [this]
    nlinarith [mul_self_nonneg a]

/-- `cosineKey` in closed form: `d * |d| / (v⬝v)` with `d = q⬝v`. -/
theorem cosineKey_eq_mulAbs (q v : List ℚ) :
    cosineKey q v = dotQ q v * |dotQ q v| / dotQ v v := by
  unfold cosineKey
  by_cases hn : dotQ v v = 0
  · rw [if_pos hn, hn, div_zero]
  · rw [if_neg hn]
    by_cases hd : dotQ q v < 0
    · rw [if_pos hd, abs_of_neg hd]
      ring
    · rw [if_neg hd, abs_of_nonneg (not_lt.mp hd)]

/-- `x ↦ x * |x|` is strictly monotone on `ℝ`. -/
theorem mulAbs_strictMono : StrictMono (fun x : ℝ => x * |x|) := by
  intro a b hab
  simp only
  rcases le_or_lt 0 a with ha | ha
  · have hb : 0 < b := lt_of_le_of_lt ha hab
    rw [abs_of_nonneg ha, abs_of_pos hb]
    nlinarith
  · rcases le_or_lt 0 b with hb | hb
    · have h1 : a * |a| < 0 := by
        rw [abs_of_neg ha]
        nlinarith
      have h2 : 0 ≤ b * |b| := by
        rw [abs_of_nonneg hb]
        nlinarith
      linarith
    · rw [abs_of_neg ha, abs_of_neg hb]
      nlinarith

/-- Cast of `cosineKey` to `ℝ`, as `d * |d| / (v⬝v)`. -/
theorem cosineKey_cast (q v : List ℚ) :
    ((cosineKey q v : ℚ) : ℝ) =
      ((dotQ q v : ℚ) : ℝ) * |((dotQ q v : ℚ) : ℝ)| / ((dotQ v v : ℚ) : ℝ) := by
  rw [cosineKey_eq_mulAbs]
  push_cast
  rfl

/-- For non-degenerate vectors, `cosineKey` is the image of the cosine
similarity under the strictly monotone map `x ↦ (q⬝q) * (x * |x|)`. -/
theorem cosineKey_eq_cos_image (q v : List ℚ) (hq : dotQ q q ≠ 0)
    (hv : dotQ v v ≠ 0) :
    ((cosineKey q v : ℚ) : ℝ) =
      ((dotQ q q : ℚ) : ℝ) *
        (((dotQ q v : ℚ) : ℝ) /
            (Real.sqrt ((dotQ q q : ℚ) : ℝ) * Real.sqrt ((dotQ v v : ℚ) : ℝ)) *
          |((dotQ q v : ℚ) : ℝ) /
            (Real.sqrt ((dotQ q q : ℚ) : ℝ) * Real.sqrt ((dotQ v v : ℚ) : ℝ))|) := by
  have hQpos : (0 : ℝ) < ((dotQ q q : ℚ) : ℝ) := by
    have h1 : (0 : ℝ) ≤ ((dotQ q q : ℚ) : ℝ) := by exact_mod_cast dotQ_self_nonneg q
    have h2 : ((dotQ q q : ℚ) : ℝ) ≠ 0 := by exact_mod_cast hq
    exact lt_of_le_of_ne h1 (Ne.symm h2)
  have hNpos : (0 : ℝ) < ((dotQ v v : ℚ) : ℝ) := by
    have h1 : (0 : ℝ) ≤ ((dotQ v v : ℚ) : ℝ) := by exact_mod_cast dotQ_self_nonneg v
    have h2 : ((dotQ v v : ℚ) : ℝ) ≠ 0 := by exact_mod_cast hv
    exact lt_of_le_of_ne h1 (Ne.symm h2)
  have hsQ : (0 : ℝ) < Real.sqrt ((dotQ q q : ℚ) : ℝ) := Real.sqrt_pos.mpr hQpos
  have hsN : (0 : ℝ) < Real.sqrt ((dotQ v v : ℚ) : ℝ) := Real.sqrt_pos.mpr hNpos
  have hden : (0 : ℝ) <
      Real.sqrt ((dotQ q q : ℚ) : ℝ) * Real.sqrt ((dotQ v v : ℚ) : ℝ) :=
    mul_pos hsQ hsN
  rw [cosineKey_cast]
  rw [abs_div, abs_of_pos hden]
  have hQQ : Real.sqrt ((dotQ q q : ℚ) : ℝ) * Real.sqrt ((dotQ q q : ℚ) : ℝ) =
      ((dotQ q q : ℚ) : ℝ) := Real.mul_self_sqrt hQpos.le
  have hNN : Real.sqrt ((dotQ v v : ℚ) : ℝ) * Real.sqrt ((dotQ v v : ℚ) : ℝ) =
      ((dotQ v v : ℚ) : ℝ) := Real.mul_self_sqrt hNpos.le
  have hSS : (Real.sqrt ((dotQ q q : ℚ) : ℝ) * Real.sqrt ((dotQ v v : ℚ) : ℝ)) *
      (Real.sqrt ((dotQ q q : ℚ) : ℝ) * Real.sqrt ((dotQ v v : ℚ) : ℝ)) =
      ((dotQ q q : ℚ) : ℝ) * ((dotQ v v : ℚ) : ℝ) := by
    rw [mul_mul_mul_comm, hQQ, hNN]
  rw [div_mul_div_comm, hSS, ← mul_div_assoc,
    mul_div_mul_left _ _ (ne_of_gt hQpos)]

/-- The cosine similarity of `q` and `v` is strictly below that of `q` and
`w` (the metric the spec names; stated over `ℝ`). -/
def CosineLT (q v w : List ℚ) : Prop :=
  ((dotQ q v : ℚ) : ℝ) /
      (Real.sqrt ((dotQ q q : ℚ) : ℝ) * Real.sqrt ((dotQ v v : ℚ) : ℝ)) <
    ((dotQ q w : ℚ) : ℝ) /
      (Real.sqrt ((dotQ q q : ℚ) : ℝ) * Real.sqrt ((dotQ w w : ℚ) : ℝ))

/-- The cosine similarities of `q` with `v` and with `w` coincide. -/
def CosineEq (q v w : List ℚ) : Prop :=
  ((dotQ q v : ℚ) : ℝ) /
      (Real.sqrt ((dotQ q q : ℚ) : ℝ) * Real.sqrt ((dotQ v v : ℚ) : ℝ)) =
    ((dotQ q w : ℚ) : ℝ) /
      (Real.sqrt ((dotQ q q : ℚ) : ℝ) * Real.sqrt ((dotQ w w : ℚ) : ℝ))

/-- `cosineKey` compares exactly as cosine similarity does (strictly). -/
theorem cosineKey_lt_iff (q v w : List ℚ) (hq : dotQ q q ≠ 0)
    (hv : dotQ v v ≠ 0) (hw : dotQ w w ≠ 0) :
    cosineKey q v < cosineKey q w ↔ CosineLT q v w := by
  have hQpos : (0 : ℝ) < ((dotQ q q : ℚ) : ℝ) := by
    have h1 : (0 : ℝ) ≤ ((dotQ q q : ℚ) : ℝ) := by exact_mod_cast dotQ_self_nonneg q
    have h2 : ((dotQ q q : ℚ) : ℝ) ≠ 0 := by exact_mod_cast hq
    exact lt_of_le_of_ne h1 (Ne.symm h2)
  rw [show (cosineKey q v < cosineKey q w) ↔
      (((cosineKey q v : ℚ) : ℝ) < ((cosineKey q w : ℚ) : ℝ)) from
    (Rat.cast_lt (K := ℝ)).symm]
  rw [cosineKey_eq_cos_image q v hq hv, cosineKey_eq_cos_image q w hq hw]
  rw [mul_lt_mul_left hQpos]
  exact ⟨fun h => mulAbs_strictMono.lt_iff_lt.mp h,
    fun h => mulAbs_strictMono.lt_iff_lt.mpr h⟩

/-- `cosineKey` agrees on equality with cosine similarity. -/
theorem cosineKey_eq_iff (q v w : List ℚ) (hq : dotQ q q ≠ 0)
    (hv : dotQ v v ≠ 0) (hw : dotQ w w ≠ 0) :
    cosineKey q v = cosineKey q w ↔ CosineEq q v w := by
  have hQne : ((dotQ q q : ℚ) : ℝ) ≠ 0 := by exact_mod_cast hq
  constructor
  · intro h
    have hc : ((cosineKey q v : ℚ) : ℝ) = ((cosineKey q w : ℚ) : ℝ) := by
      exact_mod_cast h
    rw [cosineKey_eq_cos_image q v hq hv, cosineKey_eq_cos_image q w hq hw] at hc
    have := mul_left_cancel₀ hQne hc
    exact mulAbs_strictMono.injective this
  · intro h
    have hc : ((cosineKey q v : ℚ) : ℝ) = ((cosineKey q w : ℚ) : ℝ) := by
      rw [cosineKey_eq_cos_image q v hq hv, cosineKey_eq_cos_image q w hq hw,
        CosineEq] at *
      rw [h]
    exact_mod_cast hc

/-- The ranking the spec prescribes, stated with the real cosine similarity:
`a` ranks no worse than `b` when its cosine similarity to the query is
strictly larger, or the similarities are equal and `a`'s ordinal is not
larger. -/
def CosineRank (q : List ℚ) (a b : IChunk) : Prop :=
  CosineLT q b.vec a.vec ∨ (CosineEq q a.vec b.vec ∧ a.ordinal ≤ b.ordinal)

/-- The executable ranking used by `searchTop` implies the cosine ranking on
non-degenerate vectors. -/
theorem chunkRank_implies_cosineRank (q : List ℚ) (a b : IChunk)
    (hq : dotQ q q ≠ 0) (ha : dotQ a.vec a.vec ≠ 0)
    (hb : dotQ b.vec b.vec ≠ 0) (h : chunkRank q a b) :
    CosineRank q a b := by
  rcases h with h | ⟨he, hp⟩
  · exact Or.inl ((cosineKey_lt_iff q b.vec a.vec hq hb ha).mp h)
  · exact Or.inr ⟨(cosineKey_eq_iff q a.vec b.vec hq ha hb).mp he, hp⟩

/-- C3: `searchTop` returns at most `k` chunks; every returned chunk passes
the `documentIdFilter`; when the filtered corpus has at most `k` chunks the
result is exactly all of them (as a permutation); and the result is ranked
by cosine similarity between the query vector and the chunk vectors,
descending, with ties broken in favour of the lower ordinal position. -/
theorem searchTop_spec (idx : List IChunk) (q : List ℚ) (k : Nat)
    (f : Option Nat) (hq : dotQ q q ≠ 0)
    (hv : ∀ c ∈ idx, dotQ c.vec c.vec ≠ 0) :
    (searchTop idx q k f).length ≤ k ∧
      (∀ c ∈ searchTop idx q k f, matchesFilter f c = true) ∧
      ((idx.filter (matchesFilter f)).length ≤ k →
        (searchTop idx q k f).Perm (idx.filter (matchesFilter f))) ∧
      (searchTop idx q k f).Pairwise (CosineRank q) := by
  have hsubsort : List.Sublist (searchTop idx q k f) (rankedChunks idx q f) :=
    List.take_sublist k _
  have hperm : (rankedChunks idx q f).Perm (idx.filter (matchesFilter f)) :=
    List.perm_insertionSort _ _
  refine ⟨?_, ?_, ?_, ?_⟩
  · rw [searchTop, List.length_take]
    exact min_le_left _ _
  · intro c hc
    have hm : c ∈ rankedChunks idx q f := hsubsort.subset hc
    have hfil : c ∈ idx.filter (matchesFilter f) := hperm.subset hm
    exact (List.mem_filter.mp hfil).2
  · intro hlen
    have hall : searchTop idx q k f = rankedChunks idx q f := by
      rw [searchTop]
      exact List.take_of_length_le (by rw [hperm.length_eq]; exact hlen)
    rw [hall]
    exact hperm
  · have hsorted : (rankedChunks idx q f).Pairwise (chunkRank q) :=
      List.sorted_insertionSort _ _
    have hpw : (searchTop idx q k f).Pairwise (chunkRank q) :=
      hsorted.sublist hsubsort
    refine hpw.imp_of_mem ?_
    intro a b hma hmb hr
    have hina : a ∈ idx :=
      List.mem_of_mem_filter (hperm.subset (hsubsort.subset hma))
    have hinb : b ∈ idx :=
      List.mem_of_mem_filter (hperm.subset (hsubsort.subset hmb))
    exact chunkRank_implies_cosineRank q a b hq (hv a hina) (hv b hinb) hr

/-- Witness for C3 at a concrete index and query. -/
theorem searchTop_spec_witness :
    (searchTop [⟨0, 0, "a".toList, [1]⟩, ⟨0, 1, "b".toList, [2]⟩] [1] 1
        none).length ≤ 1 ∧
      (∀ c ∈ searchTop [⟨0, 0, "a".toList, [1]⟩, ⟨0, 1, "b".toList, [2]⟩] [1] 1
        none, matchesFilter none c = true) ∧
      (([⟨0, 0, "a".toList, [1]⟩, ⟨0, 1, "b".toList, [2]⟩].filter
          (matchesFilter none)).length ≤ 1 →
        (searchTop [⟨0, 0, "a".toList, [1]⟩, ⟨0, 1, "b".toList, [2]⟩] [1] 1
          none).Perm ([⟨0, 0, "a".toList, [1]⟩, ⟨0, 1, "b".toList, [2]⟩].filter
          (matchesFilter none))) ∧
      (searchTop [⟨0, 0, "a".toList, [1]⟩, ⟨0, 1, "b".toList, [2]⟩] [1] 1
        none).Pairwise (CosineRank [1]) :=
  searchTop_spec [⟨0, 0, "a".toList, [1]⟩, ⟨0, 1, "b".toList, [2]⟩] [1] 1 none
    (by norm_num [dotQ])
    (by
      intro c hc
      simp only [List.mem_cons, List.not_mem_nil, or_false] at hc
      rcases hc with rfl | rfl <;> norm_num [dotQ])

/-! ## Summarizer (modelled from the spec) -/

/-- Whitespace characters for normalization. -/
def isWsChar (c : Char) : Bool :=
  c = ' ' || c = '\t' || c = '\n' || c = '\r'

/-- A text is blank when it consists of whitespace only. -/
def isBlank (t : List Char) : Bool := t.all isWsChar

/-- Strip leading and trailing whitespace. -/
def trimWs (t : List Char) : List Char :=
  ((t.dropWhile isWsChar).reverse.dropWhile isWsChar).reverse

/-- Sentence-terminating punctuation. -/
def isTermChar (c : Char) : Bool := c = '.' || c = '!' || c = '?'

/-- Split a text at sentence terminators, accumulating the current segment
in reverse. -/
def splitSentencesAux : List Char → List Char → List (List Char)
  | [], acc => [acc.reverse]
  | c :: rest, acc =>
    if isTermChar c then acc.reverse :: splitSentencesAux rest []
    else splitSentencesAux rest (c :: acc)

/-- Modelled from the spec: the sentence list of a document — segments
between terminators, trimmed, blank segments dropped; a text with no
complete sentence is kept whole as a single sentence. -/
def sentences (t : List Char) : List (List Char) :=
  if (((splitSentencesAux t []).map trimWs).filter (fun s => !s.isEmpty)).isEmpty
  then [trimWs t]
  else ((splitSentencesAux t []).map trimWs).filter (fun s => !s.isEmpty)

/-- Characters that form words for term-frequency scoring. -/
def isWordChar (c : Char) : Bool := c.isAlpha || c.isDigit

/-- Split into lowercase words at non-word characters. -/
def splitWordsAux : List Char → List Char → List (List Char)
  | [], acc => [acc.reverse]
  | c :: rest, acc =>
    if isWordChar c then splitWordsAux rest (c.toLower :: acc)
    else acc.reverse :: splitWordsAux rest []

/-- The lowercase words of a text. -/
def wordsOf (t : List Char) : List (List Char) :=
  (splitWordsAux t []).filter (fun w => !w.isEmpty)

/-- Modelled from the spec: the stopword set excluded from scoring. -/
def stopwords : List (List Char) :=
  (["a", "an", "the", "is", "are", "was", "were", "of", "to", "and",
    "in", "on", "it", "that", "this", "with", "for", "as", "at", "by"].map
    String.toList)

/-- Modelled from the spec: a sentence's score is the sum of the normalized
term frequencies (count in the whole document over total word count) of its
words, stopwords excluded. -/
def scoreSentence (allW : List (List Char)) (s : List Char) : ℚ :=
  (((wordsOf s).filter (fun w => !stopwords.contains w)).map
    (fun w => (allW.count w : ℚ) / (allW.length : ℚ))).sum

/-- Modelled from the spec: the number of summary sentences — proportional
to the input length, with a floor of 3 and a ceiling of 10. -/
def targetCount (t : List Char) : Nat := min 10 (max 3 (t.length / 500))

/-- Rank indexed sentences by score, descending, earlier sentence first on
ties. -/
abbrev scoreRank (allW : List (List Char)) :
    (Nat × List Char) → (Nat × List Char) → Prop :=
  KeyRank (fun p => scoreSentence allW p.2) (fun p => p.1)

/-- Order indexed sentences by their original position. -/
abbrev posRank : (Nat × List Char) → (Nat × List Char) → Prop :=
  KeyRank (fun _ => (0 : ℚ)) (fun p => p.1)

/-- Modelled from the spec: select the `n` highest-scoring sentences and
reorder the selection by original position. -/
def selectTop (allW : List (List Char)) (n : Nat)
    (sents : List (List Char)) : List (Nat × List Char) :=
  List.insertionSort posRank
    ((List.insertionSort (scoreRank allW) sents.enum).take n)

/-- Modelled from the spec: the extractive fallback summary — the top-N
sentences by frequency score, emitted in original order of appearance. -/
def extractiveSummary (t : List Char) : List (List Char) :=
  (selectTop (wordsOf t) (targetCount t) (sentences t)).map Prod.snd

/-- Join summary sentences with single spaces. -/
def renderSummary (ss : List (List Char)) : List Char :=
  List.intercalate [' '] ss

/-- Summarization error kinds (spec §7). -/
inductive SumError
  | EmptyDocument
deriving DecidableEq

/-- Modelled from the spec: the summarizer entry point.  Blank input fails
with `EmptyDocument`; otherwise the external generative capability is used
when configured, and the extractive fallback otherwise. -/
def summarize (gen : Option (List Char → List Char)) (t : List Char) :
    Except SumError (List Char) :=
  if isBlank t then .error .EmptyDocument
  else
    match gen with
    | some g => .ok (g t)
    | none => .ok (renderSummary (extractiveSummary t))

/-! ### Selection properties of the extractive summarizer -/

/-- Enumerated lists are strictly sorted by index. -/
theorem pairwise_fst_lt_enumFrom {α : Type} (n : Nat) (l : List α) :
    (List.enumFrom n l).Pairwise (fun a b => a.1 < b.1) := by
  induction l generalizing n with
  | nil => simp
  | cons a l ih =>
    rw [List.enumFrom_cons]
    refine List.Pairwise.cons ?_ (ih (n + 1))
    intro x hx
    have := List.le_fst_of_mem_enumFrom hx
    omega

/-- `List.enum` is strictly sorted by index. -/
theorem pairwise_fst_lt_enum {α : Type} (l : List α) :
    l.enum.Pairwise (fun a b => a.1 < b.1) :=
  pairwise_fst_lt_enumFrom 0 l

/-- The selection is a permutation of the top-`n` slice of the score-sorted
sentence list. -/
theorem selectTop_perm (allW : List (List Char)) (n : Nat)
    (sents : List (List Char)) :
    (selectTop allW n sents).Perm
      ((List.insertionSort (scoreRank allW) sents.enum).take n) :=
  List.perm_insertionSort _ _

/-- The selection has `min n (number of sentences)` elements. -/
theorem selectTop_length (allW : List (List Char)) (n : Nat)
    (sents : List (List Char)) :
    (selectTop allW n sents).length = min n sents.length := by
  rw [(selectTop_perm allW n sents).length_eq, List.length_take,
    List.length_insertionSort, List.enum_length]

/-- Selected pairs come from the enumerated sentence list. -/
theorem mem_selectTop_mem_enum {allW : List (List Char)} {n : Nat}
    {sents : List (List Char)} {p : Nat × List Char}
    (h : p ∈ selectTop allW n sents) : p ∈ sents.enum := by
  have h1 := (selectTop_perm allW n sents).subset h
  have h2 := (List.take_sublist n _).subset h1
  exact (List.mem_insertionSort _).mp h2

/-- The selected indices are distinct. -/
theorem selectTop_nodup_fst (allW : List (List Char)) (n : Nat)
    (sents : List (List Char)) :
    ((selectTop allW n sents).map Prod.fst).Nodup := by
  have h0 : (sents.enum.map Prod.fst).Nodup := by
    rw [List.enum_map_fst]
    exact List.nodup_range _
  have h1 : ((List.insertionSort (scoreRank allW) sents.enum).map
      Prod.fst).Nodup :=
    ((List.perm_insertionSort _ _).map Prod.fst).nodup_iff.mpr h0
  have h2 : (((List.insertionSort (scoreRank allW) sents.enum).take n).map
      Prod.fst).Nodup :=
    List.Nodup.sublist ((List.take_sublist n _).map Prod.fst) h1
  exact ((selectTop_perm allW n sents).map Prod.fst).nodup_iff.mpr h2

/-- The selection is strictly sorted by original position. -/
theorem selectTop_sorted_fst (allW : List (List Char)) (n : Nat)
    (sents : List (List Char)) :
    (selectTop allW n sents).Pairwise (fun a b => a.1 < b.1) := by
  have hle : (selectTop allW n sents).Pairwise posRank :=
    List.sorted_insertionSort _ _
  have hne : (selectTop allW n sents).Pairwise (fun a b => a.1 ≠ b.1) :=
    List.pairwise_map.mp (selectTop_nodup_fst allW n sents)
  refine (hle.and hne).imp ?_
  rintro a b ⟨hr, hs⟩
  rcases hr with hlt | ⟨_, hp⟩
  · exact absurd hlt (lt_irrefl _)
  · exact Nat.lt_of_le_of_ne hp hs

/-- The selection is a sublist of the enumerated sentences: selected
sentences keep their original relative order. -/
theorem selectTop_sublist_enum (allW : List (List Char)) (n : Nat)
    (sents : List (List Char)) :
    List.Sublist (selectTop allW n sents) sents.enum := by
  haveI : IsAntisymm (Nat × List Char) (fun a b => a.1 < b.1) :=
    ⟨fun a b h1 h2 => absurd (h1.trans h2) (lt_irrefl _)⟩
  refine List.sublist_of_subperm_of_sorted ?_
    (selectTop_sorted_fst allW n sents) (pairwise_fst_lt_enum sents)
  exact (selectTop_perm allW n sents).subperm.trans
    ((List.take_sublist n _).subperm.trans
      (List.perm_insertionSort _ _).subperm)

/-- Every selected sentence scores at least as well as every unselected
one (with the positional tie-break). -/
theorem selectTop_dominates (allW : List (List Char)) (n : Nat)
    (sents : List (List Char)) {p r : Nat × List Char}
    (hp : p ∈ selectTop allW n sents) (hr : r ∈ sents.enum)
    (hrn : r ∉ selectTop allW n sents) : scoreRank allW p r := by
  have hsorted : (List.insertionSort (scoreRank allW)
      sents.enum).Pairwise (scoreRank allW) :=
    List.sorted_insertionSort _ _
  have hpt : p ∈ (List.insertionSort (scoreRank allW) sents.enum).take n :=
    (selectTop_perm allW n sents).mem_iff.mp hp
  have hrt : r ∉ (List.insertionSort (scoreRank allW) sents.enum).take n :=
    fun hc => hrn ((selectTop_perm allW n sents).mem_iff.mpr hc)
  have hrs : r ∈ List.insertionSort (scoreRank allW) sents.enum :=
    (List.mem_insertionSort _).mpr hr
  have hrd : r ∈ (List.insertionSort (scoreRank allW) sents.enum).drop n := by
    have hsplit : r ∈ (List.insertionSort (scoreRank allW) sents.enum).take n ++
        (List.insertionSort (scoreRank allW) sents.enum).drop n := by
      rw [List.take_append_drop]
      exact hrs
    rcases List.mem_append.mp hsplit with h | h
    · exact absurd h hrt
    · exact h
  exact hsorted.rel_of_mem_take_of_mem_drop hpt hrd

/-- C5: the extractive fallback selects the top-N sentences by the
frequency-weighted score (stopwords excluded, N given by `targetCount`) and
outputs them in their original order of appearance — the summary is a
sublist of the sentence list, every selected sentence beats every
unselected one on score (earlier position winning ties), and exactly
`min N (sentence count)` sentences are selected. -/
theorem extractive_topN_in_source_order (t : List Char) :
    ∃ sel : List (Nat × List Char),
      extractiveSummary t = sel.map Prod.snd ∧
      List.Sublist (sel.map Prod.snd) (sentences t) ∧
      List.Sublist sel (sentences t).enum ∧
      sel.length = min (targetCount t) (sentences t).length ∧
      ∀ p ∈ sel, ∀ r ∈ (sentences t).enum, r ∉ sel →
        scoreSentence (wordsOf t) r.2 < scoreSentence (wordsOf t) p.2 ∨
          (scoreSentence (wordsOf t) p.2 = scoreSentence (wordsOf t) r.2 ∧
            p.1 ≤ r.1) := by
  refine ⟨selectTop (wordsOf t) (targetCount t) (sentences t), rfl, ?_, ?_,
    ?_, ?_⟩
  · have h := (selectTop_sublist_enum (wordsOf t) (targetCount t)
      (sentences t)).map Prod.snd
    rwa [List.enum_map_snd] at h
  · exact selectTop_sublist_enum _ _ _
  · exact selectTop_length _ _ _
  · intro p hp r hr hrn
    exact selectTop_dominates _ _ _ hp hr hrn

/-- Witness for C5 on the spec's example text. -/
theorem extractive_topN_in_source_order_witness :
    ∃ sel : List (Nat × List Char),
      extractiveSummary
          "A cat sat. The cat ate fish. Fish are tasty. Cats like fish.".toList =
        sel.map Prod.snd ∧
      List.Sublist (sel.map Prod.snd)
        (sentences
          "A cat sat. The cat ate fish. Fish are tasty. Cats like fish.".toList) ∧
      List.Sublist sel
        (sentences
          "A cat sat. The cat ate fish. Fish are tasty. Cats like fish.".toList).enum ∧
      sel.length =
        min (targetCount
          "A cat sat. The cat ate fish. Fish are tasty. Cats like fish.".toList)
          (sentences
            "A cat sat. The cat ate fish. Fish are tasty. Cats like fish.".toList).length ∧
      ∀ p ∈ sel, ∀ r ∈ (sentences
          "A cat sat. The cat ate fish. Fish are tasty. Cats like fish.".toList).enum,
        r ∉ sel →
          scoreSentence (wordsOf
            "A cat sat. The cat ate fish. Fish are tasty. Cats like fish.".toList)
              r.2 <
            scoreSentence (wordsOf
              "A cat sat. The cat ate fish. Fish are tasty. Cats like fish.".toList)
              p.2 ∨
          (scoreSentence (wordsOf
              "A cat sat. The cat ate fish. Fish are tasty. Cats like fish.".toList)
              p.2 =
            scoreSentence (wordsOf
              "A cat sat. The cat ate fish. Fish are tasty. Cats like fish.".toList)
              r.2 ∧ p.1 ≤ r.1) :=
  extractive_topN_in_source_order
    "A cat sat. The cat ate fish. Fish are tasty. Cats like fish.".toList

/-! ### The summarizer never silently returns an empty summary -/

/-- If trimming leaves nothing, the text was whitespace-only. -/
theorem blank_of_trimWs_eq_nil {t : List Char} (h : trimWs t = []) :
    isBlank t = true := by
  unfold trimWs at h
  rw [List.reverse_eq_nil_iff, List.dropWhile_eq_nil_iff] at h
  unfold isBlank
  rw [List.all_eq_true]
  intro x hx
  have hsplit := List.takeWhile_append_dropWhile (p := isWsChar) (l := t)
  rw [← hsplit] at hx
  rcases List.mem_append.mp hx with h1 | h1
  · exact List.mem_takeWhile_imp h1
  · exact h _ (List.mem_reverse.mpr h1)

/-- The sentence list is never empty. -/
theorem sentences_ne_nil (t : List Char) : sentences t ≠ [] := by
  unfold sentences
  split
  · simp
  · next h => simpa using h

/-- Sentences of a non-blank text are non-empty. -/
theorem mem_sentences_ne_nil {t : List Char} (hb : isBlank t = false) :
    ∀ s ∈ sentences t, s ≠ [] := by
  intro s hs
  unfold sentences at hs
  split at hs
  · rw [List.mem_singleton] at hs
    subst hs
    intro hc
    rw [blank_of_trimWs_eq_nil hc] at hb
    cases hb
  · have := (List.mem_filter.mp hs).2
    simpa using this

/-- The extractive summary always selects at least one sentence. -/
theorem extractiveSummary_ne_nil (t : List Char) : extractiveSummary t ≠ [] := by
  have hlen : (extractiveSummary t).length =
      min (targetCount t) (sentences t).length := by
    rw [extractiveSummary, List.length_map, selectTop_length]
  have h1 : 3 ≤ targetCount t := by
    unfold targetCount
    omega
  have h2 : 0 < (sentences t).length :=
    List.length_pos.mpr (sentences_ne_nil t)
  intro hc
  rw [hc] at hlen
  simp only [List.length_nil] at hlen
  omega

/-- Summary sentences come from the sentence list. -/
theorem mem_extractiveSummary_mem_sentences {t s : List Char}
    (h : s ∈ extractiveSummary t) : s ∈ sentences t := by
  rw [extractiveSummary] at h
  obtain ⟨p, hp, rfl⟩ := List.mem_map.mp h
  exact List.snd_mem_of_mem_enum (mem_selectTop_mem_enum hp)

/-- Joining a non-empty list of non-empty sentences is non-empty. -/
theorem renderSummary_ne_nil {ss : List (List Char)} (h0 : ss ≠ [])
    (h1 : ∀ s ∈ ss, s ≠ []) : renderSummary ss ≠ [] := by
  match ss, h0 with
  | s0 :: rest, _ =>
    have hs0 : s0 ≠ [] := h1 s0 (List.mem_cons_self _ _)
    cases rest with
    | nil => simpa [renderSummary, List.intercalate] using hs0
    | cons s1 r =>
      rw [renderSummary, List.intercalate, List.intersperse_cons_cons,
        List.flatten_cons]
      intro hc
      exact hs0 (List.append_eq_nil.mp hc).1

/-- C6: `summarize` fails with `EmptyDocument` exactly when the document
text is empty or whitespace-only; every non-blank input yields a summary
(also when the generative capability is absent), and the degraded
extractive mode never returns an empty summary. -/
theorem summarize_empty_document_iff (gen : Option (List Char → List Char))
    (t : List Char) :
    (summarize gen t = .error .EmptyDocument ↔ isBlank t = true) ∧
      (isBlank t = false →
        (∃ s, summarize gen t = .ok s) ∧
          ∀ s, summarize none t = .ok s → s ≠ []) := by
  constructor
  · constructor
    · intro h
      by_contra hb
      have hb' : isBlank t = false := by
        cases hfb : isBlank t
        · rfl
        · exact absurd hfb hb
      rw [summarize.eq_def, hb'] at h
      simp only [Bool.false_eq_true, if_false] at h
      cases gen <;> simp_all
    · intro h
      rw [summarize.eq_def, h]
      rfl
  · intro hb
    constructor
    · rw [summarize.eq_def, hb]
      simp only [Bool.false_eq_true, if_false]
      cases gen with
      | none => exact ⟨_, rfl⟩
      | some g => exact ⟨_, rfl⟩
    · intro s hs
      rw [summarize.eq_def, hb] at hs
      simp only [Bool.false_eq_true, if_false, Except.ok.injEq] at hs
      subst hs
      exact renderSummary_ne_nil (extractiveSummary_ne_nil t)
        (fun x hx => mem_sentences_ne_nil hb x
          (mem_extractiveSummary_mem_sentences hx))

/-- Witness for C6: a blank text fails with `EmptyDocument`, a non-blank
text produces a non-empty extractive summary. -/
theorem summarize_empty_document_iff_witness :
    (summarize none "  ".toList = .error .EmptyDocument) ∧
      isBlank "Cats purr. Dogs bark.".toList = false ∧
      ∃ s, summarize none "Cats purr. Dogs bark.".toList = .ok s ∧ s ≠ [] := by
  refine ⟨?_, ?_, ?_⟩
  · exact (summarize_empty_document_iff none "  ".toList).1.mpr (by decide)
  · decide
  · obtain ⟨s, hs⟩ :=
      ((summarize_empty_document_iff none "Cats purr. Dogs bark.".toList).2
        (by decide)).1
    exact ⟨s, hs,
      ((summarize_empty_document_iff none "Cats purr. Dogs bark.".toList).2
        (by decide)).2 s hs⟩

end WedsiteSum
